import Mathlib

/-!
Shallow embedding of the `semsi` tag-similarity pipeline.

The development translates the three core modules of the repository:

* `semsi/data.py` — the forgiving line parser (`parse_contents_lines` and its
  helpers), modelled over `List Char` with Python string primitives
  (`str.strip`, `str.find`, `str.split`) spelled out explicitly;
* `semsi/embedding.py` — `TagEmbeddingModel` with `fit` / `transform` /
  `fit_transform`, where Python floats are idealised as real numbers;
* `semsi/similarity.py` — `_cosine_similarity`, `SimilarityMatrix`,
  `build_similarity_matrix` and `get_top_similar`.

Python exceptions are modelled by an explicit error type and `Except`;
mutation of the model object is modelled by returning the new state.
-/

/-- Error values distinguishing the Python exception classes raised by the
    core modules (`ValueError`, `RuntimeError`, `KeyError`). -/
inductive PyError where
  | valueError : String → PyError
  | runtimeError : String → PyError
  | keyError : String → PyError
deriving DecidableEq

/-- The frozen dataclass `TaggedDocument` of `semsi/data.py`: an identifier,
    the ordered tag list, and the optional raw source line. -/
structure TaggedDocument where
  identifier : String
  tags : List String
  source : Option String
deriving DecidableEq

instance : Inhabited TaggedDocument := ⟨⟨"", [], none⟩⟩

/-- Index of the first occurrence of `target` in `cs`, as Python
    `str.find` restricted to the found/not-found distinction
    (`none` models Python's `-1`). -/
def findChar : List Char → Char → Option Nat
  | [], _ => none
  | c :: cs, target =>
    if c = target then some 0 else (findChar cs target).map (fun n => n + 1)

/-- Python `line.find(target, start)`: index of the first occurrence of
    `target` at position `start` or later. -/
def findCharFrom (cs : List Char) (target : Char) (start : Nat) : Option Nat :=
  (findChar (cs.drop start) target).map (fun n => n + start)

/-- Characters treated as whitespace by Python's `str.strip()` and
    `str.split()` (space, tab, newline, vertical tab, form feed,
    carriage return). -/
def isPyWhitespace (c : Char) : Bool :=
  (c == (' ')) || (c == (Char.ofNat 9)) || (c == (Char.ofNat 10)) ||
    (c == (Char.ofNat 11)) || (c == (Char.ofNat 12)) || (c == (Char.ofNat 13))

/-- Python `str.strip`: drop the characters satisfying `p` from both ends. -/
def pyStrip (p : Char → Bool) (cs : List Char) : List Char :=
  ((cs.dropWhile p).reverse.dropWhile p).reverse

/-- The strip set of `_normalise_tag`: straight single quote, double quote,
    backtick, space, left/right curly double quotes, curly apostrophe and
    middle dot (code points 39, 34, 96, 32, 8220, 8221, 8217, 183). -/
def quoteStripChars : List Char :=
  [Char.ofNat 39, Char.ofNat 34, Char.ofNat 96, Char.ofNat 32,
   Char.ofNat 8220, Char.ofNat 8221, Char.ofNat 8217, Char.ofNat 183]

/-- Translation of `_extract_bracket_content`: the substring strictly between
    the first opening bracket and the first closing bracket after it,
    or `none` when either bracket is missing. -/
def extract_bracket_content (line : List Char) : Option (List Char) :=
  match findChar line ('[') with
  | none => none
  | some start =>
    match findCharFrom line (']') (start + 1) with
    | none => none
    | some stop => some ((line.drop (start + 1)).take (stop - (start + 1)))

/-- Translation of `_normalise_tag`: strip whitespace, then strip the
    quote-like characters, return `none` for an empty remainder, otherwise
    collapse internal whitespace runs to single spaces
    (Python `" ".join(cleaned.split())`). -/
def normalise_tag (token : List Char) : Option (List Char) :=
  let cleaned := pyStrip (fun c => quoteStripChars.contains c) (pyStrip isPyWhitespace token)
  if cleaned.isEmpty then none
  else some (List.intercalate ([' '])
    ((List.splitOnP isPyWhitespace cleaned).filter (fun w => !w.isEmpty)))

/-- Translation of `_build_identifier`: underscore-join the tags (falling back
    to the stripped line when there are none), and append a `.suffix` when the
    text after the closing bracket starts with a dot and the suffix is
    non-empty (Python's truthiness test on `suffix`). -/
def build_identifier (tags : List (List Char)) (line : List Char) : List Char :=
  let suffix : Option (List Char) :=
    match findChar line (']') with
    | none => none
    | some closing =>
      let suffix_candidate := pyStrip isPyWhitespace (line.drop (closing + 1))
      if suffix_candidate.head? = some ('.') then some (suffix_candidate.drop 1) else none
  let base := if tags.isEmpty then pyStrip isPyWhitespace line else List.intercalate (['_']) tags
  match suffix with
  | some s => if s.isEmpty then base else base ++ ('.') :: s
  | none => base

/-- Translation of `parse_contents_lines`.  Lines are stripped; empty lines,
    lines without a bracketed tag list (with or without the silent
    `contents.txt` exception — both branches only differ in logging, which is
    not modelled) and lines yielding no tags are skipped; tokens are the
    comma-separated pieces of the bracket content, kept when `_normalise_tag`
    returns a truthy (non-empty) string; duplicate identifiers are skipped
    when `drop_duplicates` is set. -/
def parse_contents_lines (lines : List String) (drop_duplicates : Bool) :
    List TaggedDocument :=
  (lines.foldl
    (fun (acc : List TaggedDocument × List (List Char)) raw_line =>
      let line := pyStrip isPyWhitespace raw_line.toList
      if line.isEmpty then acc
      else
        match extract_bracket_content line with
        | none => acc
        | some bracket_content =>
          let tags := ((List.splitOnP (fun c => c == (',')) bracket_content).filterMap
              normalise_tag).filter (fun t => !t.isEmpty)
          if tags.isEmpty then acc
          else
            let identifier := build_identifier tags line
            if drop_duplicates && acc.2.contains identifier then acc
            else
              (acc.1 ++ [⟨identifier.asString, tags.map (fun t => t.asString),
                          some line.asString⟩],
               if drop_duplicates then identifier :: acc.2 else acc.2))
    ([], [])).1

/-- Document frequency from `TagEmbeddingModel.fit`: the number of documents
    whose (distinct) tag set contains `tag`.  Iterating over `set(tags)` in
    the source makes multiplicity inside one document irrelevant, which the
    membership test reflects. -/
def document_frequency (documents : List TaggedDocument) (tag : String) : Nat :=
  documents.countP (fun d => d.tags.contains tag)

/-- The `sorted_tags` list of `fit`: all distinct observed tags in
    lexicographically sorted order.  Python's `sorted` over the distinct
    counter keys produces the unique sorted arrangement, so the choice of
    sorting algorithm is immaterial. -/
def sorted_tags (documents : List TaggedDocument) : List String :=
  List.insertionSort (fun a b => a ≤ b) ((documents.flatMap (fun d => d.tags)).dedup)

/-- The `idf_` list computed by `fit`:
    `log((1 + doc_count) / (1 + document_frequency[tag])) + 1.0`
    for each tag of `sorted_tags`, in order. -/
noncomputable def idf_values (documents : List TaggedDocument) : List ℝ :=
  (sorted_tags documents).map
    (fun tag => Real.log ((1 + (documents.length : ℝ)) /
      (1 + (document_frequency documents tag : ℝ))) + 1)

/-- State of the `TagEmbeddingModel` dataclass.  The Python field
    `vocabulary_` is the dict `{tag: index for index, tag in
    enumerate(sorted_tags)}`; since its keys are distinct and the indices are
    exactly the positions in `sorted_tags`, it is represented by that list:
    the tag stored at position `k` is mapped to index `k`. -/
structure TagEmbeddingModel where
  vocabulary_ : List String
  idf_ : List ℝ
  fitted : Bool

/-- The dataclass default state: empty vocabulary, empty IDF list, unfitted. -/
def TagEmbeddingModel.init : TagEmbeddingModel := ⟨[], [], false⟩

/-- Translation of `TagEmbeddingModel.fit`.  Raises `ValueError` on an empty
    document sequence, otherwise replaces the whole state (the previous state
    is not read). -/
noncomputable def TagEmbeddingModel.fit (_m : TagEmbeddingModel)
    (documents : List TaggedDocument) : Except PyError TagEmbeddingModel :=
  match documents with
  | [] => .error (.valueError ("No documents were provided to fit the embedding model."))
  | _ :: _ => .ok ⟨sorted_tags documents, idf_values documents, true⟩

/-- Lookup `self.vocabulary_.get(tag)`: the position of `tag` in the
    vocabulary list, or `none` for an out-of-vocabulary tag. -/
def lookupIndex : List String → String → Option Nat
  | [], _ => none
  | t :: ts, tag => if t = tag then some 0 else (lookupIndex ts tag).map (fun n => n + 1)

/-- The `total = sum(counts.values()) or 1` of `transform`: the multiplicities
    of `Counter(document.tags)` sum to the length of the tag list, and Python's
    `or 1` turns the zero of an empty document into one. -/
def transformTotal (tags : List String) : Nat :=
  if tags.length = 0 then 1 else tags.length

/-- Body of the `transform` loop for one document: start from the all-zero
    vector of vocabulary dimension, and for each distinct tag of the document
    (`Counter(document.tags).items()`; each distinct tag updates its own
    index, so iteration order is immaterial) with an in-vocabulary index, set
    that coordinate to `tf * idf` where `tf = count / total`. -/
noncomputable def transformVector (vocab : List String) (idf : List ℝ)
    (tags : List String) : List ℝ :=
  (tags.dedup).foldl
    (fun vec tag =>
      match lookupIndex vocab tag with
      | none => vec
      | some index =>
        vec.set index (((tags.count tag : ℝ) / (transformTotal tags : ℝ)) * idf.getD index 0))
    (List.replicate vocab.length 0)

/-- Translation of `TagEmbeddingModel.transform`: `RuntimeError` before fit,
    otherwise one vector per document, in order. -/
noncomputable def TagEmbeddingModel.transform (m : TagEmbeddingModel)
    (documents : List TaggedDocument) : Except PyError (List (List ℝ)) :=
  if m.fitted = true then
    .ok (documents.map (fun d => transformVector m.vocabulary_ m.idf_ d.tags))
  else .error (.runtimeError ("The embedding model must be fitted before calling transform()."))

/-- Translation of `TagEmbeddingModel.fit_transform`: fit, then transform the
    same documents; the resulting state is returned alongside the vectors. -/
noncomputable def TagEmbeddingModel.fit_transform (m : TagEmbeddingModel)
    (documents : List TaggedDocument) :
    Except PyError (TagEmbeddingModel × List (List ℝ)) :=
  match m.fit documents with
  | .error e => .error e
  | .ok m2 =>
    match m2.transform documents with
    | .error e => .error e
    | .ok vs => .ok (m2, vs)

/-- The operations callable on a `TagEmbeddingModel` instance. -/
inductive ModelOp where
  | fitOp : List TaggedDocument → ModelOp
  | transformOp : List TaggedDocument → ModelOp
  | fitTransformOp : List TaggedDocument → ModelOp

/-- State transition of one operation on a model instance.  A raised exception
    leaves the Python object unchanged (`fit` raises before assigning any
    field, `transform` never assigns), and `transform` only reads the state. -/
noncomputable def runOp (m : TagEmbeddingModel) : ModelOp → TagEmbeddingModel
  | .fitOp documents =>
    match m.fit documents with
    | .ok m2 => m2
    | .error _ => m
  | .transformOp _ => m
  | .fitTransformOp documents =>
    match m.fit_transform documents with
    | .ok r => r.1
    | .error _ => m

/-- Dot product of `_cosine_similarity`: `sum(a * b for a, b in zip(vec_a,
    vec_b))`; Python `zip` truncates to the shorter sequence. -/
noncomputable def listDot (vec_a vec_b : List ℝ) : ℝ :=
  ((vec_a.zip vec_b).map (fun p => p.1 * p.2)).sum

/-- Norm of `_cosine_similarity`: `sqrt(sum(a * a for a in vec))`. -/
noncomputable def listNorm (vec : List ℝ) : ℝ :=
  Real.sqrt ((vec.map (fun x => x * x)).sum)

/-- Translation of `_cosine_similarity`: exactly `0.0` when either norm is
    zero, otherwise `dot / (norm_a * norm_b)`. -/
noncomputable def cosine_similarity (vec_a vec_b : List ℝ) : ℝ :=
  if listNorm vec_a = 0 ∨ listNorm vec_b = 0 then 0
  else listDot vec_a vec_b / (listNorm vec_a * listNorm vec_b)

/-- Round-half-to-even on the reals: the integer nearest to `y`, ties going to
    the even integer. -/
noncomputable def roundHalfEven (y : ℝ) : ℤ :=
  if Int.fract y = 1 / 2 then (if Even ⌊y⌋ then ⌊y⌋ else ⌊y⌋ + 1) else round y

/-- Exact-arithmetic idealisation of Python's `round(x, ndigits)` (banker's
    rounding to the nearest multiple of `10 ^ (-ndigits)`). -/
noncomputable def pyRound (ndigits : ℤ) (x : ℝ) : ℝ :=
  ((roundHalfEven (x * 10 ^ ndigits) : ℤ) : ℝ) / 10 ^ ndigits

/-- The optional rounding step of `build_similarity_matrix`:
    `if decimals is not None: similarity = round(similarity, decimals)`. -/
noncomputable def applyRound (decimals : Option ℤ) (x : ℝ) : ℝ :=
  match decimals with
  | none => x
  | some d => pyRound d x

/-- The `SimilarityMatrix` dataclass: an ordered label tuple and the square
    list-of-rows of scores.  The score type is a parameter so that purely
    structural operations (`row`, `get_top_similar`) can also be exercised at
    computable instances; the program instantiates it with the reals. -/
structure SimilarityMatrix (α : Type) where
  labels : List String
  values : List (List α)

/-- First-occurrence index, as Python `list.index` on the success path
    (`SimilarityMatrix.row` is only reached after a membership check). -/
def listIdxOf : List String → String → Nat
  | [], _ => 0
  | x :: xs, t => if x = t then 0 else listIdxOf xs t + 1

/-- Translation of `SimilarityMatrix.row`: pair every label with the row of
    the first occurrence of `label` (`list(zip(self.labels,
    self.values[index]))`; `zip` truncates). -/
def SimilarityMatrix.row {α : Type} (m : SimilarityMatrix α) (label : String) :
    List (String × α) :=
  m.labels.zip (m.values.getD (listIdxOf m.labels label) [])

/-- Translation of `build_similarity_matrix`: `ValueError` on an empty
    document sequence, otherwise the labels in document order and the full
    pairwise matrix of (optionally rounded) cosine similarities over the
    embeddings. -/
noncomputable def build_similarity_matrix (documents : List TaggedDocument)
    (embeddings : List (List ℝ)) (decimals : Option ℤ) :
    Except PyError (SimilarityMatrix ℝ) :=
  match documents with
  | [] => .error (.valueError ("Cannot build a similarity matrix without documents."))
  | _ :: _ =>
    .ok ⟨documents.map (fun d => d.identifier),
         embeddings.map (fun vec_a => embeddings.map
           (fun vec_b => applyRound decimals (cosine_similarity vec_a vec_b)))⟩

instance decSndGe {α : Type} [LinearOrder α] :
    DecidableRel (fun (p q : String × α) => q.2 ≤ p.2) :=
  fun p q => inferInstanceAs (Decidable (q.2 ≤ p.2))

instance totalSndGe {α : Type} [LinearOrder α] :
    IsTotal (String × α) (fun p q => q.2 ≤ p.2) :=
  ⟨fun p q => le_total q.2 p.2⟩

instance transSndGe {α : Type} [LinearOrder α] :
    IsTrans (String × α) (fun p q => q.2 ≤ p.2) :=
  ⟨fun _ _ _ h1 h2 => le_trans h2 h1⟩

/-- Translation of `get_top_similar`: `KeyError` when the target is not among
    the labels; otherwise take the target's row, drop the pairs labelled with
    the target unless `include_self`, sort by score in descending order
    (Python's stable `sort(key=score, reverse=True)`, realised by a stable
    sort on the reversed order) and keep the first `top_n` pairs. -/
def get_top_similar {α : Type} [LinearOrder α] (similarity_matrix : SimilarityMatrix α)
    (target : String) (top_n : Nat) (include_self : Bool) :
    Except PyError (List (String × α)) :=
  if target ∈ similarity_matrix.labels then
    let scores := similarity_matrix.row target
    let scores2 := if include_self then scores
      else scores.filter (fun p => !(p.1 == target))
    .ok ((List.insertionSort (fun p q => q.2 ≤ p.2) scores2).take top_n)
  else
    .error (.keyError ("Target '" ++ target ++ "' not present in similarity matrix"))

/-! ### Generic list lemmas -/

theorem getD_map_of_lt {α β : Type*} (f : α → β) :
    ∀ (l : List α) (k : ℕ), k < l.length → ∀ (d : α) (d2 : β),
      (l.map f).getD k d2 = f (l.getD k d)
  | [], k, hk, _, _ => by simp at hk
  | _ :: _, 0, _, _, _ => rfl
  | _ :: xs, k + 1, hk, d, d2 => by
    simpa [List.getD_cons_succ] using
      getD_map_of_lt f xs k (by simpa using hk) d d2

theorem getD_replicate_of_lt {α : Type*} (x d : α) :
    ∀ (n k : ℕ), k < n → (List.replicate n x).getD k d = x
  | n + 1, 0, _ => rfl
  | n + 1, k + 1, hk => by
    simpa [List.replicate_succ, List.getD_cons_succ] using
      getD_replicate_of_lt x d n k (by simpa using hk)

theorem getD_set_self {α : Type*} (l : List α) (k : ℕ) (x d : α) (hk : k < l.length) :
    (l.set k x).getD k d = x := by
  simp [List.getD_eq_getElem?_getD, List.getElem?_set, hk]

theorem getD_set_of_ne {α : Type*} (l : List α) (i k : ℕ) (x d : α) (h : i ≠ k) :
    (l.set i x).getD k d = l.getD k d := by
  simp [List.getD_eq_getElem?_getD, List.getElem?_set, h]

theorem getD_mem_of_lt {α : Type*} (l : List α) (k : ℕ) (d : α) (hk : k < l.length) :
    l.getD k d ∈ l := by
  rw [List.getD_eq_getElem?_getD, List.getElem?_eq_getElem hk]
  exact List.getElem_mem hk

/-! ### Lemmas about the vocabulary lookup and the transform fold -/

theorem lookupIndex_some_spec :
    ∀ (vocab : List String) (tag : String) (k : ℕ),
      lookupIndex vocab tag = some k → k < vocab.length ∧ vocab.getD k "" = tag := by
  intro vocab
  induction vocab with
  | nil => intro tag k h; simp [lookupIndex] at h
  | cons t ts ih =>
    intro tag k h
    by_cases ht : t = tag
    · simp [lookupIndex, ht] at h
      subst h
      exact ⟨Nat.succ_pos _, ht⟩
    · simp [lookupIndex, ht, Option.map_eq_some'] at h
      obtain ⟨n, hn, hnk⟩ := h
      obtain ⟨h1, h2⟩ := ih tag n hn
      subst hnk
      exact ⟨Nat.succ_lt_succ h1, by simpa [List.getD_cons_succ] using h2⟩

theorem lookupIndex_getD_self :
    ∀ (vocab : List String), vocab.Nodup → ∀ (k : ℕ), k < vocab.length →
      lookupIndex vocab (vocab.getD k "") = some k := by
  intro vocab
  induction vocab with
  | nil => intro _ k hk; simp at hk
  | cons t ts ih =>
    intro hnd k hk
    cases k with
    | zero => simp [lookupIndex]
    | succ n =>
      have hn : n < ts.length := by simpa using hk
      have hne : t ≠ ts.getD n "" := by
        intro hcontra
        exact (List.nodup_cons.mp hnd).1 (hcontra ▸ getD_mem_of_lt ts n "" hn)
      simp only [List.getD_cons_succ, lookupIndex]
      rw [if_neg hne, ih (List.nodup_cons.mp hnd).2 n hn]
      rfl

theorem transform_foldl_length (vocab : List String) (F : String → ℕ → ℝ) :
    ∀ (ts : List String) (vec : List ℝ),
      (ts.foldl (fun vec tag =>
        match lookupIndex vocab tag with
        | none => vec
        | some index => vec.set index (F tag index)) vec).length = vec.length
  | [], _ => rfl
  | t :: ts, vec => by
    rw [List.foldl_cons, transform_foldl_length vocab F ts]
    cases h : lookupIndex vocab t <;> simp [h]

theorem transform_foldl_getD (vocab : List String) (hv : vocab.Nodup)
    (F : String → ℕ → ℝ) :
    ∀ (ts : List String), ts.Nodup → ∀ (vec : List ℝ), vec.length = vocab.length →
      ∀ (k : ℕ), k < vocab.length →
      ((ts.foldl (fun vec tag =>
          match lookupIndex vocab tag with
          | none => vec
          | some index => vec.set index (F tag index)) vec).getD k 0)
        = if vocab.getD k "" ∈ ts then F (vocab.getD k "") k else vec.getD k 0 := by
  intro ts
  induction ts with
  | nil => intro _ vec _ k _; simp
  | cons t ts ih =>
    intro hts vec hlen k hk
    have htsn := (List.nodup_cons.mp hts).2
    have htnotin := (List.nodup_cons.mp hts).1
    rw [List.foldl_cons]
    have hstep_len :
        (match lookupIndex vocab t with
          | none => vec
          | some index => vec.set index (F t index)).length = vocab.length := by
      cases h : lookupIndex vocab t <;> simp [h, hlen]
    rw [ih htsn _ hstep_len k hk]
    by_cases ht : vocab.getD k "" = t
    · have hmem : vocab.getD k "" ∉ ts := by rw [ht]; exact htnotin
      rw [if_neg hmem, if_pos (by rw [ht]; exact List.mem_cons_self t ts)]
      have hlk : lookupIndex vocab t = some k := by
        rw [← ht]; exact lookupIndex_getD_self vocab hv k hk
      rw [hlk]
      exact ht ▸ getD_set_self vec k (F t k) 0 (hlen ▸ hk)
    · by_cases hmem : vocab.getD k "" ∈ ts
      · rw [if_pos hmem, if_pos (List.mem_cons_of_mem t hmem)]
      · have hmem2 : vocab.getD k "" ∉ t :: ts := by
          intro hc
          rcases List.mem_cons.mp hc with h1 | h2
          · exact ht h1
          · exact hmem h2
        rw [if_neg hmem, if_neg hmem2]
        cases h : lookupIndex vocab t with
        | none => rfl
        | some i =>
          have hi := lookupIndex_some_spec vocab t i h
          have hik : i ≠ k := by
            intro hik
            exact ht (by rw [← hi.2, hik])
          exact getD_set_of_ne vec i k (F t i) 0 hik

theorem transformVector_length (vocab : List String) (idf : List ℝ) (tags : List String) :
    (transformVector vocab idf tags).length = vocab.length := by
  have h := transform_foldl_length vocab
    (fun tag index => ((tags.count tag : ℝ) / (transformTotal tags : ℝ)) * idf.getD index 0)
    tags.dedup (List.replicate vocab.length 0)
  exact h.trans (by simp)

theorem transformVector_getD (vocab : List String) (hv : vocab.Nodup) (idf : List ℝ)
    (tags : List String) (k : ℕ) (hk : k < vocab.length) :
    (transformVector vocab idf tags).getD k 0 =
      if vocab.getD k "" ∈ tags then
        ((tags.count (vocab.getD k "") : ℝ) / (transformTotal tags : ℝ)) * idf.getD k 0
      else 0 := by
  have h := transform_foldl_getD vocab hv
    (fun tag index => ((tags.count tag : ℝ) / (transformTotal tags : ℝ)) * idf.getD index 0)
    tags.dedup (List.nodup_dedup tags) (List.replicate vocab.length 0) (by simp) k hk
  refine h.trans ?_
  simp only [List.mem_dedup]
  by_cases hmem : vocab.getD k "" ∈ tags
  · rw [if_pos hmem, if_pos hmem]
  · rw [if_neg hmem, if_neg hmem, getD_replicate_of_lt _ _ _ _ hk]

theorem sorted_tags_nodup (documents : List TaggedDocument) :
    (sorted_tags documents).Nodup :=
  (List.perm_insertionSort _ _).nodup_iff.mpr
    (List.nodup_dedup (documents.flatMap (fun d => d.tags)))

theorem idf_values_getD (documents : List TaggedDocument) (k : ℕ)
    (hk : k < (sorted_tags documents).length) :
    (idf_values documents).getD k 0 =
      Real.log ((1 + (documents.length : ℝ)) /
        (1 + (document_frequency documents ((sorted_tags documents).getD k "") : ℝ))) + 1 :=
  getD_map_of_lt _ _ k hk "" 0

theorem fit_cons_eq (m : TagEmbeddingModel) (d0 : TaggedDocument) (ds : List TaggedDocument) :
    m.fit (d0 :: ds) = .ok ⟨sorted_tags (d0 :: ds), idf_values (d0 :: ds), true⟩ := rfl

theorem transform_of_fitted (vocab : List String) (idf : List ℝ) (docs : List TaggedDocument) :
    (TagEmbeddingModel.mk vocab idf true).transform docs
      = .ok (docs.map (fun d => transformVector vocab idf d.tags)) := rfl

set_option maxHeartbeats 1600000 in
/-- C1: after fitting on a non-empty document sequence `D` with `N = D.length`,
    `transform` returns one vector per input document, each of the vocabulary
    dimension fixed at fit time; the entry at the index of a vocabulary tag
    equals `(count(tag) / T) * IDF(tag)` with
    `IDF(tag) = ln((1 + N) / (1 + df(tag))) + 1` and `T` the document's total
    tag count (`1` for a tagless document), entries of vocabulary tags absent
    from the document are `0`, and out-of-vocabulary tags are silently
    ignored (so a document sharing no tag with the vocabulary yields the
    all-zero vector, without error). -/
theorem transform_tfidf_spec (D docs : List TaggedDocument) (hD : D ≠ []) :
    ∃ m vs, TagEmbeddingModel.init.fit D = .ok m ∧ m.transform docs = .ok vs
      ∧ vs.length = docs.length
      ∧ ∀ i, i < docs.length →
          (vs.getD i []).length = (sorted_tags D).length
          ∧ ∀ k, k < (sorted_tags D).length →
              (vs.getD i []).getD k 0 =
                if (sorted_tags D).getD k "" ∈ (docs.getD i default).tags then
                  (((docs.getD i default).tags.count ((sorted_tags D).getD k "") : ℝ) /
                    ((if (docs.getD i default).tags.length = 0 then 1
                      else (docs.getD i default).tags.length : ℕ) : ℝ)) *
                  (Real.log ((1 + (D.length : ℝ)) /
                    (1 + (document_frequency D ((sorted_tags D).getD k "") : ℝ))) + 1)
                else 0 := by
  cases D with
  | nil => exact absurd rfl hD
  | cons d0 ds =>
    refine ⟨⟨sorted_tags (d0 :: ds), idf_values (d0 :: ds), true⟩,
      docs.map (fun d => transformVector (sorted_tags (d0 :: ds)) (idf_values (d0 :: ds)) d.tags),
      fit_cons_eq _ d0 ds, transform_of_fitted _ _ docs, List.length_map docs _, ?_⟩
    intro i hi
    rw [getD_map_of_lt _ docs i hi default []]
    constructor
    · exact transformVector_length _ _ _
    · intro k hk
      rw [transformVector_getD _ (sorted_tags_nodup _) _ _ k hk]
      by_cases hmem :
          (sorted_tags (d0 :: ds)).getD k "" ∈ (docs.getD i default).tags
      · rw [if_pos hmem, if_pos hmem, idf_values_getD _ k hk, transformTotal]
      · rw [if_neg hmem, if_neg hmem]

/-- Witness for C1 at a concrete fit set and a concrete transformed document. -/
theorem transform_tfidf_spec_witness :
    ∃ m vs,
      TagEmbeddingModel.init.fit [(⟨"doc1", ["x"], none⟩ : TaggedDocument)] = .ok m
      ∧ m.transform [(⟨"doc2", ["x", "y"], none⟩ : TaggedDocument)] = .ok vs
      ∧ vs.length = [(⟨"doc2", ["x", "y"], none⟩ : TaggedDocument)].length
      ∧ ∀ i, i < [(⟨"doc2", ["x", "y"], none⟩ : TaggedDocument)].length →
          (vs.getD i []).length = (sorted_tags [(⟨"doc1", ["x"], none⟩ : TaggedDocument)]).length
          ∧ ∀ k, k < (sorted_tags [(⟨"doc1", ["x"], none⟩ : TaggedDocument)]).length →
              (vs.getD i []).getD k 0 =
                if (sorted_tags [(⟨"doc1", ["x"], none⟩ : TaggedDocument)]).getD k ""
                    ∈ (([(⟨"doc2", ["x", "y"], none⟩ : TaggedDocument)]).getD i default).tags then
                  ((((([(⟨"doc2", ["x", "y"], none⟩ : TaggedDocument)]).getD i default).tags.count
                      ((sorted_tags [(⟨"doc1", ["x"], none⟩ : TaggedDocument)]).getD k "")) : ℝ) /
                    ((if (([(⟨"doc2", ["x", "y"], none⟩ : TaggedDocument)]).getD i default).tags.length = 0
                      then 1
                      else (([(⟨"doc2", ["x", "y"], none⟩ : TaggedDocument)]).getD i default).tags.length : ℕ) : ℝ)) *
                  (Real.log ((1 + (([(⟨"doc1", ["x"], none⟩ : TaggedDocument)]).length : ℝ)) /
                    (1 + (document_frequency [(⟨"doc1", ["x"], none⟩ : TaggedDocument)]
                      ((sorted_tags [(⟨"doc1", ["x"], none⟩ : TaggedDocument)]).getD k "") : ℝ))) + 1)
                else 0 :=
  transform_tfidf_spec [⟨"doc1", ["x"], none⟩] [⟨"doc2", ["x", "y"], none⟩] (by decide)

/-- C4: each input error is raised as a distinguishable error, never absorbed
    into a silent default: `fit` with zero documents raises `ValueError`,
    `build_similarity_matrix` with zero documents raises `ValueError`, and
    `transform` on an unfitted model raises `RuntimeError`; in each case no
    empty or degenerate success value is returned. -/
theorem error_guards_spec (m : TagEmbeddingModel) (embeddings : List (List ℝ))
    (decimals : Option ℤ) (m2 : TagEmbeddingModel) (docs : List TaggedDocument)
    (h : m2.fitted = false) :
    m.fit [] = .error (.valueError ("No documents were provided to fit the embedding model."))
    ∧ build_similarity_matrix [] embeddings decimals
        = .error (.valueError ("Cannot build a similarity matrix without documents."))
    ∧ m2.transform docs
        = .error (.runtimeError ("The embedding model must be fitted before calling transform()."))
    := ⟨rfl, rfl, by simp [TagEmbeddingModel.transform, h]⟩

/-- Witness for C4 on the unfitted initial model. -/
theorem error_guards_witness :
    TagEmbeddingModel.init.fit []
      = .error (.valueError ("No documents were provided to fit the embedding model."))
    ∧ build_similarity_matrix [] [] none
      = .error (.valueError ("Cannot build a similarity matrix without documents."))
    ∧ TagEmbeddingModel.init.transform []
      = .error (.runtimeError ("The embedding model must be fitted before calling transform()."))
    := error_guards_spec TagEmbeddingModel.init [] none TagEmbeddingModel.init [] rfl

set_option maxHeartbeats 2000000 in
/-- C6: parsing the five specified lines produces exactly 3 documents, the
    first identified as `first_second.txt`, with `third` among the second
    document's tags and `lone` among the third's; the bracket-less line and
    the blank line yield no document and do not abort parsing. -/
theorem malformed_lines_tolerated :
    (parse_contents_lines ["['first','second'].txt", "['first,'second','third'].rtf",
        "[' lone '] .pdf", "no brackets here", "   "] true).length = 3
    ∧ ((parse_contents_lines ["['first','second'].txt", "['first,'second','third'].rtf",
        "[' lone '] .pdf", "no brackets here", "   "] true).getD 0 default).identifier
        = "first_second.txt"
    ∧ "third" ∈ ((parse_contents_lines ["['first','second'].txt", "['first,'second','third'].rtf",
        "[' lone '] .pdf", "no brackets here", "   "] true).getD 1 default).tags
    ∧ "lone" ∈ ((parse_contents_lines ["['first','second'].txt", "['first,'second','third'].rtf",
        "[' lone '] .pdf", "no brackets here", "   "] true).getD 2 default).tags := by
  refine ⟨?_, ?_, ?_, ?_⟩ <;> decide

/-- C8 (amended): the fitted flag never reverts to unfit — every operation on
    a fitted instance leaves it fitted, and `transform` does not modify the
    state at all; however a second `fit` is not prevented and may replace the
    vocabulary and IDF state (see `refit_replaces_vocabulary`). -/
theorem fitted_state_monotone (m : TagEmbeddingModel) (op : ModelOp)
    (docs : List TaggedDocument) (h : m.fitted = true) :
    (runOp m op).fitted = true ∧ runOp m (.transformOp docs) = m := by
  refine ⟨?_, rfl⟩
  cases op with
  | fitOp documents =>
    cases documents with
    | nil => simpa [runOp, TagEmbeddingModel.fit] using h
    | cons d ds => simp [runOp, TagEmbeddingModel.fit]
  | transformOp documents => simpa [runOp] using h
  | fitTransformOp documents =>
    cases documents with
    | nil =>
      simpa [runOp, TagEmbeddingModel.fit_transform, TagEmbeddingModel.fit] using h
    | cons d ds =>
      simp [runOp, TagEmbeddingModel.fit_transform, TagEmbeddingModel.fit,
        TagEmbeddingModel.transform]

/-- Witness for C8's amended statement on a concrete fitted state. -/
theorem fitted_state_monotone_witness :
    (runOp ⟨[], [], true⟩ (.transformOp [])).fitted = true
    ∧ runOp (⟨[], [], true⟩ : TagEmbeddingModel) (.transformOp []) = ⟨[], [], true⟩ :=
  fitted_state_monotone ⟨[], [], true⟩ (.transformOp []) [] rfl

/-- Counterexample to C8 as stated: a second successful `fit` on a fitted
    instance replaces the fitted vocabulary with different values, so "no
    later operation replaces the fitted vocabulary and IDF state" fails. -/
theorem refit_replaces_vocabulary :
    (runOp TagEmbeddingModel.init (.fitOp [⟨"d1", ["alpha"], none⟩])).fitted = true
    ∧ (runOp (runOp TagEmbeddingModel.init (.fitOp [⟨"d1", ["alpha"], none⟩]))
        (.fitOp [⟨"d2", ["beta"], none⟩])).vocabulary_
      ≠ (runOp TagEmbeddingModel.init (.fitOp [⟨"d1", ["alpha"], none⟩])).vocabulary_ := by
  constructor
  · simp [runOp, TagEmbeddingModel.fit]
  · simp [runOp, TagEmbeddingModel.fit, sorted_tags]

/-- C10: `build_similarity_matrix` never checks that documents and embeddings
    have equal length: with non-empty documents and an embeddings sequence of
    a different length it raises no error and returns a matrix whose rows and
    columns count the embeddings while the labels count the documents. -/
theorem build_matrix_unchecked_lengths (documents : List TaggedDocument)
    (embeddings : List (List ℝ)) (decimals : Option ℤ)
    (hne : documents ≠ []) (hlen : documents.length ≠ embeddings.length) :
    ∃ M, build_similarity_matrix documents embeddings decimals = .ok M
      ∧ M.labels.length = documents.length
      ∧ M.values.length = embeddings.length
      ∧ ∀ row ∈ M.values, row.length = embeddings.length := by
  cases documents with
  | nil => exact absurd rfl hne
  | cons d ds =>
    refine ⟨_, rfl, by simp, by simp, ?_⟩
    intro row hrow
    obtain ⟨vec_a, _, rfl⟩ := List.mem_map.mp hrow
    simp

/-- Witness for C10 with one document and two embedding vectors. -/
theorem build_matrix_unchecked_lengths_witness :
    ∃ M, build_similarity_matrix [(⟨"a", ["t"], none⟩ : TaggedDocument)]
        [[(1 : ℝ)], [0]] none = .ok M
      ∧ M.labels.length = [(⟨"a", ["t"], none⟩ : TaggedDocument)].length
      ∧ M.values.length = [[(1 : ℝ)], [0]].length
      ∧ ∀ row ∈ M.values, row.length = [[(1 : ℝ)], [0]].length :=
  build_matrix_unchecked_lengths [⟨"a", ["t"], none⟩] [[(1 : ℝ)], [0]] none
    (by decide) (by decide)

/-! ### Cosine similarity mathematics -/

theorem listDot_symm : ∀ (vec_a vec_b : List ℝ), listDot vec_a vec_b = listDot vec_b vec_a
  | [], [] => rfl
  | [], _ :: _ => by simp [listDot]
  | _ :: _, [] => by simp [listDot]
  | x :: as, y :: bs => by
    have ih := listDot_symm as bs
    simp only [listDot, List.zip_cons_cons, List.map_cons, List.sum_cons] at ih ⊢
    rw [mul_comm x y, ih]

theorem listDot_self : ∀ (v : List ℝ), listDot v v = (v.map (fun x => x * x)).sum
  | [] => rfl
  | x :: xs => by
    have ih := listDot_self xs
    simp only [listDot, List.zip_cons_cons, List.map_cons, List.sum_cons] at ih ⊢
    rw [ih]

theorem sumSq_nonneg (v : List ℝ) : 0 ≤ (v.map (fun x => x * x)).sum := by
  apply List.sum_nonneg
  intro y hy
  obtain ⟨x, _, rfl⟩ := List.mem_map.mp hy
  exact mul_self_nonneg x

theorem listNorm_nonneg (v : List ℝ) : 0 ≤ listNorm v := Real.sqrt_nonneg _

theorem listNorm_eq_zero_iff (v : List ℝ) :
    listNorm v = 0 ↔ (v.map (fun x => x * x)).sum = 0 := by
  unfold listNorm
  rw [Real.sqrt_eq_zero']
  constructor
  · exact fun h => le_antisymm h (sumSq_nonneg v)
  · exact fun h => le_of_eq h

theorem listNorm_mul_self (v : List ℝ) :
    listNorm v * listNorm v = (v.map (fun x => x * x)).sum :=
  Real.mul_self_sqrt (sumSq_nonneg v)

theorem listDot_nonneg (vec_a vec_b : List ℝ) (ha : ∀ x ∈ vec_a, 0 ≤ x)
    (hb : ∀ x ∈ vec_b, 0 ≤ x) : 0 ≤ listDot vec_a vec_b := by
  apply List.sum_nonneg
  intro y hy
  obtain ⟨p, hp, rfl⟩ := List.mem_map.mp hy
  obtain ⟨h1, h2⟩ := List.of_mem_zip hp
  exact mul_nonneg (ha _ h1) (hb _ h2)

theorem listDot_eq_sum_range :
    ∀ (vec_a vec_b : List ℝ), listDot vec_a vec_b
      = ∑ i ∈ Finset.range (min vec_a.length vec_b.length),
          vec_a.getD i 0 * vec_b.getD i 0
  | [], _ => by simp [listDot]
  | _ :: _, [] => by simp [listDot]
  | x :: as, y :: bs => by
    have ih := listDot_eq_sum_range as bs
    simp only [listDot, List.zip_cons_cons, List.map_cons, List.sum_cons] at ih ⊢
    rw [ih, List.length_cons, List.length_cons, Nat.succ_min_succ, Finset.sum_range_succ']
    simp only [List.getD_cons_succ, List.getD_cons_zero]
    ring

theorem sumSq_eq_sum_range :
    ∀ (v : List ℝ), (v.map (fun x => x * x)).sum
      = ∑ i ∈ Finset.range v.length, v.getD i 0 * v.getD i 0
  | [] => by simp
  | x :: xs => by
    have ih := sumSq_eq_sum_range xs
    simp only [List.map_cons, List.sum_cons] at ih ⊢
    rw [ih, List.length_cons, Finset.sum_range_succ']
    simp only [List.getD_cons_succ, List.getD_cons_zero]
    ring

theorem listDot_le_norm_mul_norm (vec_a vec_b : List ℝ) (ha : ∀ x ∈ vec_a, 0 ≤ x)
    (hb : ∀ x ∈ vec_b, 0 ≤ x) :
    listDot vec_a vec_b ≤ listNorm vec_a * listNorm vec_b := by
  have hcs := Finset.sum_mul_sq_le_sq_mul_sq
    (Finset.range (min vec_a.length vec_b.length))
    (fun i => vec_a.getD i 0) (fun i => vec_b.getD i 0)
  have ha2 : ∑ i ∈ Finset.range (min vec_a.length vec_b.length), (vec_a.getD i 0) ^ 2
      ≤ (vec_a.map (fun x => x * x)).sum := by
    rw [sumSq_eq_sum_range]
    simp only [pow_two]
    exact Finset.sum_le_sum_of_subset_of_nonneg
      (Finset.range_subset.mpr (Nat.min_le_left _ _))
      (fun i _ _ => mul_self_nonneg _)
  have hb2 : ∑ i ∈ Finset.range (min vec_a.length vec_b.length), (vec_b.getD i 0) ^ 2
      ≤ (vec_b.map (fun x => x * x)).sum := by
    rw [sumSq_eq_sum_range]
    simp only [pow_two]
    exact Finset.sum_le_sum_of_subset_of_nonneg
      (Finset.range_subset.mpr (Nat.min_le_right _ _))
      (fun i _ _ => mul_self_nonneg _)
  have hsq : (listDot vec_a vec_b) ^ 2
      ≤ (vec_a.map (fun x => x * x)).sum * (vec_b.map (fun x => x * x)).sum := by
    rw [listDot_eq_sum_range]
    refine hcs.trans ?_
    exact mul_le_mul ha2 hb2
      (Finset.sum_nonneg (fun i _ => sq_nonneg _)) (sumSq_nonneg _)
  have hd : 0 ≤ listDot vec_a vec_b := listDot_nonneg _ _ ha hb
  have hroot := Real.sqrt_le_sqrt hsq
  rw [Real.sqrt_sq hd, Real.sqrt_mul (sumSq_nonneg _)] at hroot
  exact hroot

theorem cosine_similarity_zero_norm (vec_a vec_b : List ℝ)
    (h : listNorm vec_a = 0 ∨ listNorm vec_b = 0) :
    cosine_similarity vec_a vec_b = 0 := by
  unfold cosine_similarity
  rw [if_pos h]

theorem cosine_similarity_symm (vec_a vec_b : List ℝ) :
    cosine_similarity vec_a vec_b = cosine_similarity vec_b vec_a := by
  unfold cosine_similarity
  by_cases h : listNorm vec_a = 0 ∨ listNorm vec_b = 0
  · rw [if_pos h, if_pos h.symm]
  · rw [if_neg h, if_neg (fun hc => h hc.symm), listDot_symm, mul_comm]

theorem cosine_similarity_self_one (v : List ℝ) (h : ∃ x ∈ v, x ≠ 0) :
    cosine_similarity v v = 1 := by
  obtain ⟨x, hx, hx0⟩ := h
  have hpos : 0 < (v.map (fun y => y * y)).sum := by
    have hmem : x * x ∈ v.map (fun y => y * y) := List.mem_map.mpr ⟨x, hx, rfl⟩
    have hle := List.single_le_sum
      (fun y hy => by
        obtain ⟨z, _, rfl⟩ := List.mem_map.mp hy
        exact mul_self_nonneg z)
      (x * x) hmem
    exact lt_of_lt_of_le (mul_self_pos.mpr hx0) hle
  have hnorm : listNorm v ≠ 0 := by
    unfold listNorm
    exact ne_of_gt (Real.sqrt_pos.mpr hpos)
  unfold cosine_similarity
  rw [if_neg (by push_neg; exact ⟨hnorm, hnorm⟩), listDot_self, listNorm_mul_self]
  exact div_self (ne_of_gt hpos)

theorem cosine_similarity_mem_unit (vec_a vec_b : List ℝ) (ha : ∀ x ∈ vec_a, 0 ≤ x)
    (hb : ∀ x ∈ vec_b, 0 ≤ x) :
    0 ≤ cosine_similarity vec_a vec_b ∧ cosine_similarity vec_a vec_b ≤ 1 := by
  unfold cosine_similarity
  by_cases h : listNorm vec_a = 0 ∨ listNorm vec_b = 0
  · rw [if_pos h]
    norm_num
  · rw [if_neg h]
    push_neg at h
    have h1 : 0 < listNorm vec_a := lt_of_le_of_ne (listNorm_nonneg _) (Ne.symm h.1)
    have h2 : 0 < listNorm vec_b := lt_of_le_of_ne (listNorm_nonneg _) (Ne.symm h.2)
    constructor
    · exact div_nonneg (listDot_nonneg _ _ ha hb) (mul_nonneg h1.le h2.le)
    · rw [div_le_one (mul_pos h1 h2)]
      exact listDot_le_norm_mul_norm _ _ ha hb

/-! ### Rounding mathematics -/

theorem roundHalfEven_intCast (n : ℤ) : roundHalfEven (n : ℝ) = n := by
  unfold roundHalfEven
  rw [Int.fract_intCast, if_neg (by norm_num), round_intCast]

theorem abs_roundHalfEven_sub (y : ℝ) : |(roundHalfEven y : ℝ) - y| ≤ 1 / 2 := by
  unfold roundHalfEven
  by_cases h : Int.fract y = 1 / 2
  · rw [if_pos h]
    have h2 : y - (⌊y⌋ : ℝ) = 1 / 2 := h
    by_cases he : Even ⌊y⌋
    · rw [if_pos he, abs_le]
      constructor <;> linarith
    · rw [if_neg he, abs_le]
      push_cast
      constructor <;> linarith
  · rw [if_neg h, abs_sub_comm]
    exact abs_sub_round y

theorem pyRound_mem_unit (d : ℤ) (x : ℝ) (h0 : 0 ≤ x) (h1 : x ≤ 1) :
    0 ≤ pyRound d x ∧ pyRound d x ≤ 1 := by
  have hp : (0 : ℝ) < 10 ^ d := zpow_pos (by norm_num) d
  have habs := abs_roundHalfEven_sub (x * 10 ^ d)
  rw [abs_le] at habs
  have hy0 : 0 ≤ x * 10 ^ d := mul_nonneg h0 hp.le
  have hy1 : x * 10 ^ d ≤ 10 ^ d := by
    calc x * 10 ^ d ≤ 1 * 10 ^ d := mul_le_mul_of_nonneg_right h1 hp.le
    _ = 10 ^ d := one_mul _
  have hn0 : 0 ≤ roundHalfEven (x * 10 ^ d) := by
    by_contra hc
    push_neg at hc
    have hc2 : roundHalfEven (x * 10 ^ d) ≤ -1 := by omega
    have hc3 : ((roundHalfEven (x * 10 ^ d) : ℤ) : ℝ) ≤ -1 := by exact_mod_cast hc2
    linarith [habs.1]
  constructor
  · exact div_nonneg (by exact_mod_cast hn0) hp.le
  · show ((roundHalfEven (x * 10 ^ d) : ℤ) : ℝ) / 10 ^ d ≤ 1
    rw [div_le_one hp]
    rcases le_or_lt 0 d with hd | hd
    · obtain ⟨n, rfl⟩ := Int.eq_ofNat_of_zero_le hd
      have hcast : ((10 : ℝ) ^ (n : ℤ)) = (((10 : ℤ) ^ n : ℤ) : ℝ) := by
        rw [zpow_natCast]
        push_cast
        ring
      have hlt : ((roundHalfEven (x * 10 ^ (n : ℤ)) : ℤ) : ℝ)
          < (((10 : ℤ) ^ n : ℤ) : ℝ) + 1 := by
        rw [← hcast]
        linarith [habs.2]
      have hltz : roundHalfEven (x * 10 ^ (n : ℤ)) < (10 : ℤ) ^ n + 1 := by
        exact_mod_cast hlt
      have hfin : roundHalfEven (x * 10 ^ (n : ℤ)) ≤ (10 : ℤ) ^ n :=
        Int.lt_add_one_iff.mp hltz
      rw [hcast]
      exact_mod_cast hfin
    · have hd1 : d ≤ -1 := by omega
      have hsmall : (10 : ℝ) ^ d ≤ (10 : ℝ) ^ (-1 : ℤ) :=
        zpow_le_zpow_right₀ (by norm_num) hd1
      have h110 : (10 : ℝ) ^ (-1 : ℤ) = 1 / 10 := by
        rw [zpow_neg, zpow_one]
        norm_num
      have hup : ((roundHalfEven (x * 10 ^ d) : ℤ) : ℝ) < 1 := by
        rw [h110] at hsmall
        linarith [habs.2]
      have hint : roundHalfEven (x * 10 ^ d) ≤ 0 := by
        have hlt1 : roundHalfEven (x * 10 ^ d) < 1 := by exact_mod_cast hup
        omega
      have hz : roundHalfEven (x * 10 ^ d) = 0 := le_antisymm hint hn0
      rw [hz]
      push_cast
      exact hp.le

theorem pyRound_one (d : ℤ) (hd : 0 ≤ d) : pyRound d 1 = 1 := by
  obtain ⟨n, rfl⟩ := Int.eq_ofNat_of_zero_le hd
  unfold pyRound
  rw [one_mul]
  have hcast : ((10 : ℝ) ^ (n : ℤ)) = (((10 : ℤ) ^ n : ℤ) : ℝ) := by
    rw [zpow_natCast]
    push_cast
    ring
  rw [hcast, roundHalfEven_intCast]
  exact div_self (by push_cast; positivity)

theorem applyRound_mem_unit (decimals : Option ℤ) (x : ℝ) (h0 : 0 ≤ x) (h1 : x ≤ 1) :
    0 ≤ applyRound decimals x ∧ applyRound decimals x ≤ 1 := by
  cases decimals with
  | none => exact ⟨h0, h1⟩
  | some d => exact pyRound_mem_unit d x h0 h1

theorem applyRound_one (decimals : Option ℤ) (hd : ∀ nd, decimals = some nd → 0 ≤ nd) :
    applyRound decimals 1 = 1 := by
  cases decimals with
  | none => rfl
  | some d => exact pyRound_one d (hd d rfl)

theorem build_values_cell (documents : List TaggedDocument) (embeddings : List (List ℝ))
    (decimals : Option ℤ) (h : documents ≠ []) :
    ∃ M, build_similarity_matrix documents embeddings decimals = .ok M
      ∧ M.labels = documents.map (fun d => d.identifier)
      ∧ M.values.length = embeddings.length
      ∧ (∀ row ∈ M.values, row.length = embeddings.length)
      ∧ ∀ i j, i < embeddings.length → j < embeddings.length →
          (M.values.getD i []).getD j 0
            = applyRound decimals
                (cosine_similarity (embeddings.getD i []) (embeddings.getD j [])) := by
  cases documents with
  | nil => exact absurd rfl h
  | cons d0 ds =>
    refine ⟨_, rfl, rfl, by simp, ?_, ?_⟩
    · intro row hrow
      obtain ⟨vec_a, _, rfl⟩ := List.mem_map.mp hrow
      simp
    · intro i j hi hj
      rw [getD_map_of_lt _ embeddings i hi [] []]
      show (embeddings.map (fun vec_b => applyRound decimals
        (cosine_similarity (embeddings.getD i []) vec_b))).getD j 0 = _
      rw [getD_map_of_lt _ embeddings j hj [] 0]

/-! ### Lemmas about first-occurrence index and top-k -/

theorem listIdxOf_lt_length : ∀ (l : List String) (t : String), t ∈ l →
    listIdxOf l t < l.length
  | [], t, h => absurd h (List.not_mem_nil t)
  | x :: xs, t, h => by
    by_cases hx : x = t
    · simp [listIdxOf, hx]
    · have ht : t ∈ xs := by
        rcases List.mem_cons.mp h with h1 | h2
        · exact absurd h1.symm hx
        · exact h2
      show (if x = t then 0 else listIdxOf xs t + 1) < xs.length + 1
      rw [if_neg hx]
      exact Nat.succ_lt_succ (listIdxOf_lt_length xs t ht)

theorem listIdxOf_getD : ∀ (l : List String) (t : String), t ∈ l →
    l.getD (listIdxOf l t) "" = t
  | [], t, h => absurd h (List.not_mem_nil t)
  | x :: xs, t, h => by
    by_cases hx : x = t
    · simp [listIdxOf, hx]
    · have ht : t ∈ xs := by
        rcases List.mem_cons.mp h with h1 | h2
        · exact absurd h1.symm hx
        · exact h2
      show (x :: xs).getD (if x = t then 0 else listIdxOf xs t + 1) "" = t
      rw [if_neg hx, List.getD_cons_succ]
      exact listIdxOf_getD xs t ht

theorem listIdxOf_min : ∀ (l : List String) (t : String) (j : ℕ), j < listIdxOf l t →
    l.getD j "" ≠ t
  | [], t, j, h => by simp [listIdxOf] at h
  | x :: xs, t, j, h => by
    by_cases hx : x = t
    · rw [show listIdxOf (x :: xs) t = if x = t then 0 else listIdxOf xs t + 1 from rfl,
        if_pos hx] at h
      omega
    · rw [show listIdxOf (x :: xs) t = if x = t then 0 else listIdxOf xs t + 1 from rfl,
        if_neg hx] at h
      cases j with
      | zero => simpa using hx
      | succ n =>
        rw [List.getD_cons_succ]
        exact listIdxOf_min xs t n (by omega)

/-- C2: every stored cell of `build_similarity_matrix` equals the cosine
    similarity `dot / (norm_a * norm_b)` of the corresponding pair of
    embeddings — defined as exactly `0.0` whenever either vector has zero
    norm, so the division by the norms is never evaluated with a zero
    divisor — and when a rounding precision is supplied each value is
    rounded to that many decimal digits before being stored (and stored
    unrounded when the precision is absent). -/
theorem build_matrix_cells_spec (documents : List TaggedDocument)
    (embeddings : List (List ℝ)) (decimals : Option ℤ) (h : documents ≠ []) :
    (∀ vec_a vec_b, (listNorm vec_a = 0 ∨ listNorm vec_b = 0) →
      cosine_similarity vec_a vec_b = 0)
    ∧ ∃ M, build_similarity_matrix documents embeddings decimals = .ok M
        ∧ M.values.length = embeddings.length
        ∧ (∀ row ∈ M.values, row.length = embeddings.length)
        ∧ ∀ i j, i < embeddings.length → j < embeddings.length →
            ((decimals = none →
              (M.values.getD i []).getD j 0
                = cosine_similarity (embeddings.getD i []) (embeddings.getD j []))
            ∧ ∀ nd, decimals = some nd →
                (M.values.getD i []).getD j 0
                  = pyRound nd
                      (cosine_similarity (embeddings.getD i []) (embeddings.getD j []))) := by
  refine ⟨cosine_similarity_zero_norm, ?_⟩
  obtain ⟨M, hM, _, hlen, hrows, hcell⟩ := build_values_cell documents embeddings decimals h
  refine ⟨M, hM, hlen, hrows, ?_⟩
  intro i j hi hj
  constructor
  · intro hnone
    rw [hcell i j hi hj, hnone]
    rfl
  · intro nd hnd
    rw [hcell i j hi hj, hnd]
    rfl

/-- Witness for C2 at one document, one embedding vector and precision 6. -/
theorem build_matrix_cells_spec_witness :
    (∀ vec_a vec_b, (listNorm vec_a = 0 ∨ listNorm vec_b = 0) →
      cosine_similarity vec_a vec_b = 0)
    ∧ ∃ M, build_similarity_matrix [(⟨"a", ["t"], none⟩ : TaggedDocument)]
          [[(1 : ℝ)]] (some 6) = .ok M
        ∧ M.values.length = [[(1 : ℝ)]].length
        ∧ (∀ row ∈ M.values, row.length = [[(1 : ℝ)]].length)
        ∧ ∀ i j, i < [[(1 : ℝ)]].length → j < [[(1 : ℝ)]].length →
            (((some 6 : Option ℤ) = none →
              (M.values.getD i []).getD j 0
                = cosine_similarity (([[(1 : ℝ)]]).getD i []) (([[(1 : ℝ)]]).getD j []))
            ∧ ∀ nd, (some 6 : Option ℤ) = some nd →
                (M.values.getD i []).getD j 0
                  = pyRound nd
                      (cosine_similarity (([[(1 : ℝ)]]).getD i []) (([[(1 : ℝ)]]).getD j []))) :=
  build_matrix_cells_spec [⟨"a", ["t"], none⟩] [[(1 : ℝ)]] (some 6) (by decide)

/-- Counterexample to C3 as stated: with the legal rounding precision `-1`
    (Python `round(x, -1)` rounds to a multiple of ten), the diagonal cell of
    a non-zero non-negative unit embedding stores `0.0`, not `1.0`, even
    though documents and embeddings have equal length. -/
theorem rounded_diagonal_zero_example :
    ∃ M, build_similarity_matrix [(⟨"d", ["t"], none⟩ : TaggedDocument)] [[(1 : ℝ)]]
        (some (-1)) = .ok M
      ∧ (∀ vec ∈ ([[(1 : ℝ)]] : List (List ℝ)), ∀ x ∈ vec, (0 : ℝ) ≤ x)
      ∧ (∃ x ∈ ([[(1 : ℝ)]] : List (List ℝ)).getD 0 [], x ≠ 0)
      ∧ (M.values.getD 0 []).getD 0 0 = 0
      ∧ ((0 : ℝ) ≠ 1) := by
  refine ⟨_, rfl, ?_, ?_, ?_, by norm_num⟩
  · intro vec hv x hx
    rcases List.mem_singleton.mp hv with rfl
    rcases List.mem_singleton.mp hx with rfl
    norm_num
  · exact ⟨1, by simp, by norm_num⟩
  · have hcos : cosine_similarity [(1 : ℝ)] [(1 : ℝ)] = 1 :=
      cosine_similarity_self_one _ ⟨1, by simp, by norm_num⟩
    show applyRound (some (-1)) (cosine_similarity [(1 : ℝ)] [(1 : ℝ)]) = 0
    rw [hcos]
    show pyRound (-1) 1 = 0
    unfold pyRound
    rw [one_mul]
    have h110 : (10 : ℝ) ^ (-1 : ℤ) = 1 / 10 := by
      rw [zpow_neg, zpow_one]
      norm_num
    rw [h110]
    have hfr : Int.fract ((1 : ℝ) / 10) = 1 / 10 :=
      Int.fract_eq_self.mpr ⟨by norm_num, by norm_num⟩
    have hr : roundHalfEven ((1 : ℝ) / 10) = 0 := by
      unfold roundHalfEven
      rw [hfr, if_neg (by norm_num), round_eq]
      norm_num
    rw [hr]
    norm_num

/-- C3 (amended): for non-empty documents with an equal-length sequence of
    non-negative embedding vectors, the built matrix is square with side
    `len(labels)`, symmetric, has every value in `[0, 1]`, and the diagonal
    cell of every document with a non-zero vector equals `1.0` provided the
    rounding precision, when supplied, is non-negative (rounding to a
    negative number of digits, legal in Python, sends `1.0` to `0.0` — see
    `rounded_diagonal_zero_example`). -/
theorem build_matrix_invariants (documents : List TaggedDocument)
    (embeddings : List (List ℝ)) (decimals : Option ℤ) (h1 : documents ≠ [])
    (h2 : documents.length = embeddings.length)
    (h3 : ∀ vec ∈ embeddings, ∀ x ∈ vec, (0 : ℝ) ≤ x) :
    ∃ M, build_similarity_matrix documents embeddings decimals = .ok M
      ∧ M.values.length = M.labels.length
      ∧ (∀ row ∈ M.values, row.length = M.labels.length)
      ∧ (∀ i j, i < M.labels.length → j < M.labels.length →
          (M.values.getD i []).getD j 0 = (M.values.getD j []).getD i 0)
      ∧ (∀ i, i < M.labels.length → (∃ x ∈ embeddings.getD i [], x ≠ 0) →
          (∀ nd, decimals = some nd → 0 ≤ nd) →
          (M.values.getD i []).getD i 0 = 1)
      ∧ (∀ i j, i < M.labels.length → j < M.labels.length →
          0 ≤ (M.values.getD i []).getD j 0 ∧ (M.values.getD i []).getD j 0 ≤ 1) := by
  obtain ⟨M, hM, hlabels, hlen, hrows, hcell⟩ :=
    build_values_cell documents embeddings decimals h1
  have hlab : M.labels.length = embeddings.length := by
    rw [hlabels, List.length_map, h2]
  refine ⟨M, hM, ?_, ?_, ?_, ?_, ?_⟩
  · rw [hlen, hlab]
  · intro row hrow
    rw [hrows row hrow, hlab]
  · intro i j hi hj
    rw [hcell i j (hlab ▸ hi) (hlab ▸ hj), hcell j i (hlab ▸ hj) (hlab ▸ hi),
      cosine_similarity_symm]
  · intro i hi hnz hd
    rw [hcell i i (hlab ▸ hi) (hlab ▸ hi), cosine_similarity_self_one _ hnz,
      applyRound_one decimals hd]
  · intro i j hi hj
    rw [hcell i j (hlab ▸ hi) (hlab ▸ hj)]
    obtain ⟨hc0, hc1⟩ := cosine_similarity_mem_unit
      (embeddings.getD i []) (embeddings.getD j [])
      (h3 _ (getD_mem_of_lt embeddings i [] (hlab ▸ hi)))
      (h3 _ (getD_mem_of_lt embeddings j [] (hlab ▸ hj)))
    exact applyRound_mem_unit decimals _ hc0 hc1

/-- Witness for C3's amended statement on two orthogonal unit vectors with the
    default precision 6. -/
theorem build_matrix_invariants_witness :
    ∃ M, build_similarity_matrix
        [(⟨"a", ["t"], none⟩ : TaggedDocument), ⟨"b", ["u"], none⟩]
        [[(1 : ℝ), 0], [0, 1]] (some 6) = .ok M
      ∧ M.values.length = M.labels.length
      ∧ (∀ row ∈ M.values, row.length = M.labels.length)
      ∧ (∀ i j, i < M.labels.length → j < M.labels.length →
          (M.values.getD i []).getD j 0 = (M.values.getD j []).getD i 0)
      ∧ (∀ i, i < M.labels.length →
          (∃ x ∈ ([[(1 : ℝ), 0], [0, 1]] : List (List ℝ)).getD i [], x ≠ 0) →
          (∀ nd, (some 6 : Option ℤ) = some nd → 0 ≤ nd) →
          (M.values.getD i []).getD i 0 = 1)
      ∧ (∀ i j, i < M.labels.length → j < M.labels.length →
          0 ≤ (M.values.getD i []).getD j 0 ∧ (M.values.getD i []).getD j 0 ≤ 1) :=
  build_matrix_invariants [⟨"a", ["t"], none⟩, ⟨"b", ["u"], none⟩]
    [[(1 : ℝ), 0], [0, 1]] (some 6) (by decide) (by decide)
    (by
      intro vec hv x hx
      fin_cases hv <;> fin_cases hx <;> norm_num)

/-- C5: `get_top_similar` raises a lookup error (`KeyError`) exactly when the
    target is not among the matrix's labels; otherwise it returns at most
    `top_n` pairs drawn from the target's row, excludes every self-labelled
    pair unless `include_self` is requested, and the returned pairs are
    sorted in descending order of score. -/
theorem get_top_similar_spec {α : Type} [LinearOrder α]
    (similarity_matrix : SimilarityMatrix α) (target : String) (top_n : ℕ)
    (include_self : Bool) :
    (target ∉ similarity_matrix.labels →
      get_top_similar similarity_matrix target top_n include_self
        = .error (.keyError ("Target '" ++ target ++ "' not present in similarity matrix")))
    ∧ (target ∈ similarity_matrix.labels →
      ∃ res, get_top_similar similarity_matrix target top_n include_self = .ok res
        ∧ res.length ≤ top_n
        ∧ (∀ p ∈ res, p ∈ similarity_matrix.row target)
        ∧ (include_self = false → ∀ p ∈ res, p.1 ≠ target)
        ∧ res.Pairwise (fun p q => q.2 ≤ p.2)) := by
  constructor
  · intro h
    unfold get_top_similar
    rw [if_neg h]
  · intro h
    refine ⟨(List.insertionSort (fun p q => q.2 ≤ p.2)
        (if include_self then similarity_matrix.row target
         else (similarity_matrix.row target).filter (fun p => !(p.1 == target)))).take top_n,
      ?_, List.length_take_le top_n _, ?_, ?_, ?_⟩
    · unfold get_top_similar
      rw [if_pos h]
    · intro p hp
      have h1 := List.take_subset top_n _ hp
      have h2 := (List.perm_insertionSort (fun (p q : String × α) => q.2 ≤ p.2) _).mem_iff.mp h1
      cases include_self with
      | true => simpa using h2
      | false =>
        simp only [Bool.false_eq_true, if_false] at h2
        exact (List.mem_filter.mp h2).1
    · intro hfalse p hp
      subst hfalse
      have h1 := List.take_subset top_n _ hp
      have h2 := (List.perm_insertionSort (fun (p q : String × α) => q.2 ≤ p.2) _).mem_iff.mp h1
      simp only [Bool.false_eq_true, if_false] at h2
      have h3 := (List.mem_filter.mp h2).2
      simpa using h3
    · exact List.Pairwise.sublist (List.take_sublist _ _)
        (List.sorted_insertionSort (fun (p q : String × α) => q.2 ≤ p.2) _)

/-- Witness for C5's success branch on a concrete two-label matrix over the
    rationals. -/
theorem get_top_similar_spec_witness :
    ∃ res, get_top_similar
        (⟨["a", "b"], [[(1 : ℚ), 1/2], [1/2, 1]]⟩ : SimilarityMatrix ℚ)
        ("a") 5 false = .ok res
      ∧ res.length ≤ 5
      ∧ (∀ p ∈ res, p ∈ (⟨["a", "b"], [[(1 : ℚ), 1/2], [1/2, 1]]⟩ :
          SimilarityMatrix ℚ).row ("a"))
      ∧ (false = false → ∀ p ∈ res, p.1 ≠ "a")
      ∧ res.Pairwise (fun p q => q.2 ≤ p.2) :=
  (get_top_similar_spec (⟨["a", "b"], [[(1 : ℚ), 1/2], [1/2, 1]]⟩ : SimilarityMatrix ℚ)
    ("a") 5 false).2 (by decide)

/-- C9: when the labels contain the target more than once, `get_top_similar`
    reads the row of the first occurrence of the target (the least index
    whose label equals it), and with `include_self` false every pair whose
    label equals the target is removed — all documents sharing the target's
    identifier are excluded, not only the diagonal self-pair. -/
theorem get_top_similar_first_occurrence {α : Type} [LinearOrder α]
    (similarity_matrix : SimilarityMatrix α) (target : String) (top_n : ℕ)
    (h : target ∈ similarity_matrix.labels) :
    ∃ k res, k < similarity_matrix.labels.length
      ∧ similarity_matrix.labels.getD k "" = target
      ∧ (∀ j, j < k → similarity_matrix.labels.getD j "" ≠ target)
      ∧ get_top_similar similarity_matrix target top_n false = .ok res
      ∧ (∀ p ∈ res, p ∈ similarity_matrix.labels.zip (similarity_matrix.values.getD k []))
      ∧ (∀ p ∈ res, p.1 ≠ target) := by
  refine ⟨listIdxOf similarity_matrix.labels target,
    (List.insertionSort (fun p q => q.2 ≤ p.2)
      ((similarity_matrix.row target).filter (fun p => !(p.1 == target)))).take top_n,
    listIdxOf_lt_length _ _ h, listIdxOf_getD _ _ h,
    (fun j hj => listIdxOf_min _ _ j hj), ?_, ?_, ?_⟩
  · unfold get_top_similar
    rw [if_pos h]
    rfl
  · intro p hp
    have h1 := List.take_subset top_n _ hp
    have h2 := (List.perm_insertionSort (fun (p q : String × α) => q.2 ≤ p.2) _).mem_iff.mp h1
    exact (List.mem_filter.mp h2).1
  · intro p hp
    have h1 := List.take_subset top_n _ hp
    have h2 := (List.perm_insertionSort (fun (p q : String × α) => q.2 ≤ p.2) _).mem_iff.mp h1
    have h3 := (List.mem_filter.mp h2).2
    simpa using h3

/-- Witness for C9 on a matrix whose labels contain the target twice. -/
theorem get_top_similar_first_occurrence_witness :
    ∃ k res, k < (⟨["a", "b", "a"], [[(1 : ℚ), 0, 0], [0, 1, 0], [0, 0, 1]]⟩ :
        SimilarityMatrix ℚ).labels.length
      ∧ (⟨["a", "b", "a"], [[(1 : ℚ), 0, 0], [0, 1, 0], [0, 0, 1]]⟩ :
          SimilarityMatrix ℚ).labels.getD k "" = "a"
      ∧ (∀ j, j < k → (⟨["a", "b", "a"], [[(1 : ℚ), 0, 0], [0, 1, 0], [0, 0, 1]]⟩ :
          SimilarityMatrix ℚ).labels.getD j "" ≠ "a")
      ∧ get_top_similar (⟨["a", "b", "a"], [[(1 : ℚ), 0, 0], [0, 1, 0], [0, 0, 1]]⟩ :
          SimilarityMatrix ℚ) ("a") 10 false = .ok res
      ∧ (∀ p ∈ res, p ∈ (⟨["a", "b", "a"], [[(1 : ℚ), 0, 0], [0, 1, 0], [0, 0, 1]]⟩ :
          SimilarityMatrix ℚ).labels.zip
            ((⟨["a", "b", "a"], [[(1 : ℚ), 0, 0], [0, 1, 0], [0, 0, 1]]⟩ :
              SimilarityMatrix ℚ).values.getD k []))
      ∧ (∀ p ∈ res, p.1 ≠ "a") :=
  get_top_similar_first_occurrence
    (⟨["a", "b", "a"], [[(1 : ℚ), 0, 0], [0, 1, 0], [0, 0, 1]]⟩ : SimilarityMatrix ℚ)
    ("a") 10 (by decide)

/-- C7: fitting on two document sequences that are permutations of the same
    document multiset yields identical vocabulary mappings (the same
    tag-to-index assignment, the indices following lexicographically sorted
    tag order) and identical IDF value lists — and therefore identical
    fitted models. -/
theorem fit_perm_deterministic (docs1 docs2 : List TaggedDocument)
    (hp : docs1.Perm docs2) :
    TagEmbeddingModel.init.fit docs1 = TagEmbeddingModel.init.fit docs2
    ∧ sorted_tags docs1 = sorted_tags docs2
    ∧ idf_values docs1 = idf_values docs2
    ∧ (sorted_tags docs1).Sorted (fun a b => a ≤ b) := by
  have hst : sorted_tags docs1 = sorted_tags docs2 := by
    apply List.eq_of_perm_of_sorted (r := fun a b : String => a ≤ b)
    · exact (List.perm_insertionSort _ _).trans
        (((List.Perm.flatMap_right (fun d => d.tags) hp).dedup).trans
          (List.perm_insertionSort _ _).symm)
    · exact List.sorted_insertionSort _ _
    · exact List.sorted_insertionSort _ _
  have hidf : idf_values docs1 = idf_values docs2 := by
    unfold idf_values
    rw [hst, hp.length_eq]
    apply List.map_congr_left
    intro tag _
    rw [show document_frequency docs1 tag = document_frequency docs2 tag from
      hp.countP_eq _]
  refine ⟨?_, hst, hidf, List.sorted_insertionSort _ _⟩
  cases docs1 with
  | nil =>
    have h2 : docs2 = [] := hp.symm.eq_nil
    rw [h2]
  | cons a l1 =>
    cases docs2 with
    | nil => exact absurd hp.eq_nil (by simp)
    | cons b l2 =>
      rw [fit_cons_eq, fit_cons_eq, hst, hidf]

/-- Witness for C7 on a two-document swap. -/
theorem fit_perm_deterministic_witness :
    TagEmbeddingModel.init.fit
        [(⟨"a", ["x", "y"], none⟩ : TaggedDocument), ⟨"b", ["y", "z"], none⟩]
      = TagEmbeddingModel.init.fit [⟨"b", ["y", "z"], none⟩, ⟨"a", ["x", "y"], none⟩]
    ∧ sorted_tags [(⟨"a", ["x", "y"], none⟩ : TaggedDocument), ⟨"b", ["y", "z"], none⟩]
      = sorted_tags [⟨"b", ["y", "z"], none⟩, ⟨"a", ["x", "y"], none⟩]
    ∧ idf_values [(⟨"a", ["x", "y"], none⟩ : TaggedDocument), ⟨"b", ["y", "z"], none⟩]
      = idf_values [⟨"b", ["y", "z"], none⟩, ⟨"a", ["x", "y"], none⟩]
    ∧ (sorted_tags [(⟨"a", ["x", "y"], none⟩ : TaggedDocument),
        ⟨"b", ["y", "z"], none⟩]).Sorted (fun a b => a ≤ b) :=
  fit_perm_deterministic
    [⟨"a", ["x", "y"], none⟩, ⟨"b", ["y", "z"], none⟩]
    [⟨"b", ["y", "z"], none⟩, ⟨"a", ["x", "y"], none⟩]
    (List.Perm.swap (⟨"b", ["y", "z"], none⟩ : TaggedDocument)
      ⟨"a", ["x", "y"], none⟩ [])
